import Mathlib

/-!
Shallow embedding of the decision-and-scoring engine of the Iterated
Prisoner's Dilemma terminal game (`src/main.rs`).

Modelling conventions:
* Rust `u32` counters are embedded as `Nat` and `i32` scores as `Int`
  (per-game scores are bounded by 5 points × 50 rounds, far from overflow).
* `rand::thread_rng().gen_bool(p)` draws are derandomised: a strategy
  receives an infinite tape `rng : ℕ → ℚ` of independent uniform draws in
  `[0,1)` and each `gen_bool p` call consumes the next draw `u`, returning
  `u < p` (`genBool`).  Probability claims become universally quantified
  statements over the tape.
* The `f32` defect-rate comparisons `count/len > 0.4` and `> 0.3` are
  embedded as exact rational comparisons.  For every `0 < len ≤ 50` and
  `count ≤ len` the rational value `count/len` differs from the threshold
  by at least `1/500` unless it is exactly equal, while the `f32` rounding
  error of the quotient and of the literals is below `10⁻⁷`; an exactly
  equal quotient rounds to the same `f32` as the literal, so the strict
  `f32` comparison agrees with the strict rational comparison.
* `history.last().unwrap()` can panic on an empty slice; the embedding of
  `get_computer_move` therefore returns `Option Move`, with `none` marking
  the panic.  Totality of the selector is the statement that it always
  returns `some`.
-/

/-- `enum Move { Cooperate, Defect }`. -/
inductive Move where
  | Cooperate : Move
  | Defect : Move
deriving DecidableEq, Repr

/-- `enum Difficulty { Easy, Medium, Hard, Legendary }`. -/
inductive Difficulty where
  | Easy : Difficulty
  | Medium : Difficulty
  | Hard : Difficulty
  | Legendary : Difficulty
deriving DecidableEq, Repr

/-- `struct Statistics` — the seven persisted counters. -/
structure Statistics where
  games_played : Nat
  games_won : Nat
  games_lost : Nat
  games_tied : Nat
  total_points : Int
  best_score_differential : Int
  worst_score_differential : Int
deriving DecidableEq, Repr

/-- `Statistics::new()` — the all-zero record. -/
def Statistics.new : Statistics :=
  { games_played := 0
    games_won := 0
    games_lost := 0
    games_tied := 0
    total_points := 0
    best_score_differential := 0
    worst_score_differential := 0 }

/-- `Statistics::load()`.  The file system is abstracted: `file_exists`
models `Path::new(STATS_FILE).exists()`, `content` the outcome of
`fs::read_to_string` (`none` = read error), and `parse` the outcome of
`serde_json::from_str` (`none` = parse error).  The nested `if let`
chain of the source returns the parsed record on full success and
`Statistics::new()` on any failure. -/
def Statistics.load (file_exists : Bool) (content : Option String)
    (parse : String → Option Statistics) : Statistics :=
  if file_exists then
    match content with
    | some c =>
      match parse c with
      | some stats => stats
      | none => Statistics.new
    | none => Statistics.new
  else
    Statistics.new

/-- Checked division: `none` when the denominator is zero, modelling the
non-finite `f32` result that dividing by zero would produce. -/
def fdiv (a b : ℚ) : Option ℚ :=
  if b = 0 then none else some (a / b)

/-- `Statistics::win_rate()`: `0.0` when no game was played, otherwise
`(games_won as f32 / games_played as f32) * 100.0`.  The division is
embedded with `fdiv` so that reaching it with a zero denominator is
observable. -/
def Statistics.win_rate (s : Statistics) : Option ℚ :=
  if s.games_played = 0 then
    some 0
  else
    (fdiv (s.games_won : ℚ) (s.games_played : ℚ)).map (fun r => r * 100)

/-- `struct GameState`. -/
structure GameState where
  player_score : Int
  computer_score : Int
  round : Nat
  total_rounds : Nat
  history : List (Move × Move)
  difficulty : Difficulty
deriving DecidableEq, Repr

/-- `GameState::new(total_rounds, difficulty)`. -/
def GameState.new (total_rounds : Nat) (difficulty : Difficulty) : GameState :=
  { player_score := 0
    computer_score := 0
    round := 0
    total_rounds := total_rounds
    history := []
    difficulty := difficulty }

/-- `GameState::calculate_payoff(&self, player_move, computer_move)`.  The
source makes it a method on `GameState`, so the embedding keeps the `self`
parameter, which the match never consults. -/
def GameState.calculate_payoff (_self : GameState) (player_move computer_move : Move) :
    Int × Int :=
  match player_move, computer_move with
  | Move.Cooperate, Move.Cooperate => (3, 3)
  | Move.Cooperate, Move.Defect => (0, 5)
  | Move.Defect, Move.Cooperate => (5, 0)
  | Move.Defect, Move.Defect => (1, 1)

/-- `rng.gen_bool(p)` applied to one uniform draw `u ∈ [0,1)`: true exactly
when `u < p`. -/
def genBool (p u : ℚ) : Bool :=
  decide (u < p)

/-- The `player_defect_rate` computation shared by the Hard and Legendary
branches: the fraction of history entries whose player move is `Defect`. -/
def playerDefectRate (history : List (Move × Move)) : ℚ :=
  (history.countP (fun e => decide (e.1 = Move.Defect)) : ℚ) / (history.length : ℚ)

/-- The inline flip at the end of the Legendary branch:
`if strategy == Cooperate { Defect } else { Cooperate }`. -/
def flipMove : Move → Move
  | Move.Cooperate => Move.Defect
  | Move.Defect => Move.Cooperate

/-- `get_computer_move(history, difficulty)` over a derandomised tape
`rng` of uniform draws; each `gen_bool` call consumes the next unused
draw, in source order.  `none` marks the `history.last().unwrap()`
panic on an empty slice. -/
def get_computer_move (history : List (Move × Move)) (difficulty : Difficulty)
    (rng : ℕ → ℚ) : Option Move :=
  match difficulty with
  | Difficulty.Easy =>
    some (if genBool (7/10) (rng 0) then Move.Cooperate else Move.Defect)
  | Difficulty.Medium =>
    if history.isEmpty then
      some Move.Cooperate
    else
      match history.getLast? with
      | none => none
      | some e =>
        some (if genBool (17/20) (rng 0) then e.1 else Move.Defect)
  | Difficulty.Hard =>
    if history.isEmpty then
      some (if genBool (3/5) (rng 0) then Move.Cooperate else Move.Defect)
    else
      if playerDefectRate history > 2/5 then
        some Move.Defect
      else
        some (if genBool (3/5) (rng 0) then Move.Cooperate else Move.Defect)
  | Difficulty.Legendary =>
    if history.isEmpty then
      some (if genBool (1/2) (rng 0) then Move.Cooperate else Move.Defect)
    else
      match history.getLast? with
      | none => none
      | some e =>
        let base : Move × Nat :=
          if playerDefectRate history > 3/10 then (Move.Defect, 0)
          else if e.1 = Move.Defect then (Move.Defect, 0)
          else if genBool (1/2) (rng 0) then (Move.Defect, 1)
          else (Move.Cooperate, 1)
        some (if genBool (3/20) (rng base.2) then flipMove base.1 else base.1)

/-- One iteration of the round loop in `main` (lines 715–737), with the
moves already obtained: increment the round counter, apply the payoff,
add the points to both cumulative scores and push the pair onto the
history. -/
def playRound (state : GameState) (player_move computer_move : Move) : GameState :=
  let pay := state.calculate_payoff player_move computer_move
  { state with
    round := state.round + 1
    player_score := state.player_score + pay.1
    computer_score := state.computer_score + pay.2
    history := state.history ++ [(player_move, computer_move)] }

/-- Running the round loop over a given sequence of move pairs. -/
def runRounds (state : GameState) (moves : List (Move × Move)) : GameState :=
  moves.foldl (fun s pc => playRound s pc.1 pc.2) state

/-- The statistics update after a completed game in `main`
(lines 739–754), as a pure function of the prior record and the final
game state. -/
def record_game (stats : Statistics) (state : GameState) : Statistics :=
  let score_diff := state.player_score - state.computer_score
  let stats1 := { stats with
    games_played := stats.games_played + 1
    total_points := stats.total_points + state.player_score }
  let stats2 :=
    if state.player_score > state.computer_score then
      { stats1 with games_won := stats1.games_won + 1 }
    else if state.player_score < state.computer_score then
      { stats1 with games_lost := stats1.games_lost + 1 }
    else
      { stats1 with games_tied := stats1.games_tied + 1 }
  { stats2 with
    best_score_differential := max stats2.best_score_differential score_diff
    worst_score_differential := min stats2.worst_score_differential score_diff }

/-- The per-game score differential `state.player_score - state.computer_score`. -/
def score_diff (state : GameState) : Int :=
  state.player_score - state.computer_score

/-- Folding a sequence of completed games into a statistics record. -/
def record_games (stats : Statistics) (games : List GameState) : Statistics :=
  games.foldl record_game stats

/-! ## Claim theorems -/

/-- C1: `calculate_payoff` is a total pure function on the four move pairs
returning exactly (3,3), (0,5), (5,0), (1,1); its result does not depend on
any other part of the game state, and the pairwise totals are 6, 5, 5, 2. -/
theorem payoff_matrix_exact_and_state_independent :
    (∀ s : GameState,
        s.calculate_payoff Move.Cooperate Move.Cooperate = (3, 3)
      ∧ s.calculate_payoff Move.Cooperate Move.Defect = (0, 5)
      ∧ s.calculate_payoff Move.Defect Move.Cooperate = (5, 0)
      ∧ s.calculate_payoff Move.Defect Move.Defect = (1, 1))
  ∧ (∀ s t : GameState, ∀ pm cm : Move,
        s.calculate_payoff pm cm = t.calculate_payoff pm cm)
  ∧ (∀ s : GameState,
        (s.calculate_payoff Move.Cooperate Move.Cooperate).1
          + (s.calculate_payoff Move.Cooperate Move.Cooperate).2 = 6
      ∧ (s.calculate_payoff Move.Cooperate Move.Defect).1
          + (s.calculate_payoff Move.Cooperate Move.Defect).2 = 5
      ∧ (s.calculate_payoff Move.Defect Move.Cooperate).1
          + (s.calculate_payoff Move.Defect Move.Cooperate).2 = 5
      ∧ (s.calculate_payoff Move.Defect Move.Defect).1
          + (s.calculate_payoff Move.Defect Move.Defect).2 = 2) := by
  refine ⟨fun s => ⟨rfl, rfl, rfl, rfl⟩, fun s t pm cm => ?_, fun s => ⟨rfl, rfl, rfl, rfl⟩⟩
  cases pm <;> cases cm <;> rfl

/-- C3: recording a finished game increments `games_played`, adds the
player's final score to `total_points`, increments exactly one of
won/lost/tied according to the three-way score comparison, updates the
best differential by `max` and the worst by `min`, and changes no other
field. -/
theorem record_game_effects (stats : Statistics) (state : GameState) :
    (record_game stats state).games_played = stats.games_played + 1
  ∧ (record_game stats state).total_points = stats.total_points + state.player_score
  ∧ (state.player_score > state.computer_score →
        (record_game stats state).games_won = stats.games_won + 1
      ∧ (record_game stats state).games_lost = stats.games_lost
      ∧ (record_game stats state).games_tied = stats.games_tied)
  ∧ (state.player_score < state.computer_score →
        (record_game stats state).games_won = stats.games_won
      ∧ (record_game stats state).games_lost = stats.games_lost + 1
      ∧ (record_game stats state).games_tied = stats.games_tied)
  ∧ (state.player_score = state.computer_score →
        (record_game stats state).games_won = stats.games_won
      ∧ (record_game stats state).games_lost = stats.games_lost
      ∧ (record_game stats state).games_tied = stats.games_tied + 1)
  ∧ (record_game stats state).games_won + (record_game stats state).games_lost
      + (record_game stats state).games_tied
      = stats.games_won + stats.games_lost + stats.games_tied + 1
  ∧ (record_game stats state).best_score_differential
      = max stats.best_score_differential (state.player_score - state.computer_score)
  ∧ (record_game stats state).worst_score_differential
      = min stats.worst_score_differential (state.player_score - state.computer_score) := by
  unfold record_game
  rcases lt_trichotomy state.player_score state.computer_score with h | h | h
  · simp [not_lt.mpr h.le, h, not_lt_of_lt h]
    omega
  · simp [h]
    omega
  · simp [h, not_lt.mpr h.le, not_lt_of_lt h]
    omega

/-- C3 witness: the effects at a concrete record and a concrete won game. -/
theorem record_game_effects_witness :
    (record_game ⟨2, 1, 1, 0, 10, 4, -3⟩ ⟨9, 4, 3, 3, [], Difficulty.Easy⟩).games_played = 3
  ∧ (record_game ⟨2, 1, 1, 0, 10, 4, -3⟩ ⟨9, 4, 3, 3, [], Difficulty.Easy⟩).games_won = 2
  ∧ (record_game ⟨2, 1, 1, 0, 10, 4, -3⟩ ⟨9, 4, 3, 3, [], Difficulty.Easy⟩).games_tied = 0
  ∧ (record_game ⟨2, 1, 1, 0, 10, 4, -3⟩
      ⟨9, 4, 3, 3, [], Difficulty.Easy⟩).best_score_differential = 5 := by
  have h := record_game_effects ⟨2, 1, 1, 0, 10, 4, -3⟩ ⟨9, 4, 3, 3, [], Difficulty.Easy⟩
  refine ⟨h.1, (h.2.2.1 (by decide)).1, (h.2.2.1 (by decide)).2.2, ?_⟩
  rw [h.2.2.2.2.2.2.1]
  decide

/-- C7: the strategy selector is total: for every difficulty, history and
random tape it returns `some` move — the `unwrap` of the last history
entry in the Medium and Legendary branches is only reached on a non-empty
history. -/
theorem get_computer_move_total (history : List (Move × Move)) (d : Difficulty)
    (rng : ℕ → ℚ) : (get_computer_move history d rng).isSome = true := by
  cases d with
  | Easy => simp [get_computer_move]
  | Medium =>
    cases history with
    | nil => simp [get_computer_move]
    | cons a l =>
      obtain ⟨e, he⟩ := Option.isSome_iff_exists.mp
        (List.getLast?_isSome.mpr (List.cons_ne_nil a l))
      simp [get_computer_move, he]
  | Hard =>
    cases history with
    | nil => simp [get_computer_move]
    | cons a l =>
      simp only [get_computer_move, List.isEmpty_cons, Bool.false_eq_true, if_false]
      split <;> simp
  | Legendary =>
    cases history with
    | nil => simp [get_computer_move]
    | cons a l =>
      obtain ⟨e, he⟩ := Option.isSome_iff_exists.mp
        (List.getLast?_isSome.mpr (List.cons_ne_nil a l))
      simp [get_computer_move, he]

/-- C10: `win_rate` is total at its interface: with `games_played = 0` it
returns `0.0` without dividing, and the division is only performed with a
positive denominator, so it always produces a value. -/
theorem win_rate_total (s : Statistics) :
    (Statistics.win_rate s).isSome = true
  ∧ (s.games_played = 0 → Statistics.win_rate s = some 0)
  ∧ (s.games_played ≠ 0 →
      Statistics.win_rate s = some ((s.games_won : ℚ) / (s.games_played : ℚ) * 100)) := by
  by_cases h : s.games_played = 0
  · refine ⟨?_, fun _ => ?_, fun hne => absurd h hne⟩ <;>
      simp [Statistics.win_rate, h]
  · have hq : ((s.games_played : ℚ)) ≠ 0 := by
      exact_mod_cast h
    refine ⟨?_, fun h0 => absurd h0 h, fun _ => ?_⟩ <;>
      simp [Statistics.win_rate, h, fdiv, hq]

/-- C10 witness: the fresh record reports a win rate of `0.0`. -/
theorem win_rate_total_witness :
    (Statistics.win_rate Statistics.new).isSome = true
  ∧ Statistics.win_rate Statistics.new = some 0 := by
  have h := win_rate_total Statistics.new
  exact ⟨h.1, h.2.1 rfl⟩

/-- A list with a last element is non-empty. -/
theorem isEmpty_eq_false_of_getLast? {α : Type} {l : List α} {e : α}
    (h : l.getLast? = some e) : l.isEmpty = false := by
  cases l with
  | nil => simp at h
  | cons a t => rfl

/-- Unfolding of the Medium branch on a non-empty history. -/
theorem medium_branch (history : List (Move × Move)) (e : Move × Move)
    (rng : ℕ → ℚ) (h : history.getLast? = some e) :
    get_computer_move history Difficulty.Medium rng
      = some (if genBool (17/20) (rng 0) then e.1 else Move.Defect) := by
  simp [get_computer_move, isEmpty_eq_false_of_getLast? h, h]

/-- C4: the Medium strategy cooperates on an empty history; on a non-empty
history it mirrors the player's most recent move when the draw is below
0.85 and defects otherwise, reads no history entry other than the last,
and never cooperates unless the player's last move was Cooperate. -/
theorem medium_strategy_spec :
    (∀ rng : ℕ → ℚ, get_computer_move [] Difficulty.Medium rng = some Move.Cooperate)
  ∧ (∀ (history : List (Move × Move)) (e : Move × Move) (rng : ℕ → ℚ),
      history.getLast? = some e →
        get_computer_move history Difficulty.Medium rng
          = some (if genBool (17/20) (rng 0) then e.1 else Move.Defect))
  ∧ (∀ (h1 h2 : List (Move × Move)) (rng : ℕ → ℚ),
      h1.getLast? = h2.getLast? →
        get_computer_move h1 Difficulty.Medium rng
          = get_computer_move h2 Difficulty.Medium rng)
  ∧ (∀ (history : List (Move × Move)) (e : Move × Move) (rng : ℕ → ℚ),
      history.getLast? = some e →
      get_computer_move history Difficulty.Medium rng = some Move.Cooperate →
      e.1 = Move.Cooperate) := by
  refine ⟨fun rng => rfl, medium_branch, fun h1 h2 rng hl => ?_, fun history e rng hl hc => ?_⟩
  · match hh1 : h1.getLast? with
    | none =>
      have e1 : h1 = [] := List.getLast?_eq_none_iff.mp hh1
      have e2 : h2 = [] := List.getLast?_eq_none_iff.mp (by rw [← hl, hh1])
      rw [e1, e2]
    | some e =>
      rw [medium_branch h1 e rng hh1, medium_branch h2 e rng (by rw [← hl, hh1])]
  · rw [medium_branch history e rng hl] at hc
    by_cases hg : genBool (17/20) (rng 0) = true
    · rw [if_pos hg] at hc
      exact (Option.some.injEq _ _ ▸ hc).symm ▸ rfl
    · rw [if_neg hg] at hc
      cases hc

/-- C4 witness: Medium with last player move Cooperate and a low draw
mirrors Cooperate; with an empty history it cooperates. -/
theorem medium_strategy_spec_witness :
    get_computer_move [(Move.Cooperate, Move.Defect)] Difficulty.Medium (fun _ => 0)
      = some Move.Cooperate
  ∧ get_computer_move [] Difficulty.Medium (fun _ => 0) = some Move.Cooperate := by
  constructor
  · have h := medium_strategy_spec.2.1 [(Move.Cooperate, Move.Defect)]
      (Move.Cooperate, Move.Defect) (fun _ => 0) (by simp)
    rw [h]
    norm_num [genBool]
  · exact medium_strategy_spec.1 (fun _ => 0)

/-- C5: the Hard strategy on an empty history cooperates exactly when the
draw is below 0.6; on a non-empty history it defects unconditionally
(for every random tape) when the player's historical defect rate exceeds
0.4, and otherwise cooperates exactly when the draw is below 0.6. -/
theorem hard_strategy_spec :
    (∀ rng : ℕ → ℚ, get_computer_move [] Difficulty.Hard rng
        = some (if genBool (3/5) (rng 0) then Move.Cooperate else Move.Defect))
  ∧ (∀ (history : List (Move × Move)) (rng : ℕ → ℚ), history ≠ [] →
      playerDefectRate history > 2/5 →
        get_computer_move history Difficulty.Hard rng = some Move.Defect)
  ∧ (∀ (history : List (Move × Move)) (rng : ℕ → ℚ), history ≠ [] →
      ¬ playerDefectRate history > 2/5 →
        get_computer_move history Difficulty.Hard rng
          = some (if genBool (3/5) (rng 0) then Move.Cooperate else Move.Defect)) := by
  refine ⟨fun rng => rfl, fun history rng hne hr => ?_, fun history rng hne hr => ?_⟩ <;>
    simp [get_computer_move, List.isEmpty_iff.not.mpr hne, hr]

/-- C5 witness: an all-defect one-round history (defect rate 1 > 0.4)
forces Defect on two different tapes; a low-defect-rate history follows
the 0.6 coin. -/
theorem hard_strategy_spec_witness :
    get_computer_move [(Move.Defect, Move.Cooperate)] Difficulty.Hard (fun _ => 0)
      = some Move.Defect
  ∧ get_computer_move [(Move.Defect, Move.Cooperate)] Difficulty.Hard (fun _ => 9/10)
      = some Move.Defect
  ∧ get_computer_move [(Move.Cooperate, Move.Cooperate)] Difficulty.Hard (fun _ => 0)
      = some Move.Cooperate := by
  have h1 : playerDefectRate [(Move.Defect, Move.Cooperate)] = 1 := by
    simp [playerDefectRate]
  have h0 : playerDefectRate [(Move.Cooperate, Move.Cooperate)] = 0 := by
    simp [playerDefectRate]
  have hr : playerDefectRate [(Move.Defect, Move.Cooperate)] > 2/5 := by
    rw [h1]; norm_num
  have hr0 : ¬ playerDefectRate [(Move.Cooperate, Move.Cooperate)] > 2/5 := by
    rw [h0]; norm_num
  refine ⟨hard_strategy_spec.2.1 _ _ (by simp) hr,
    hard_strategy_spec.2.1 _ _ (by simp) hr,
    ?_⟩
  rw [hard_strategy_spec.2.2 [(Move.Cooperate, Move.Cooperate)] (fun _ => 0) (by simp) hr0]
  norm_num [genBool]

/-- C6: the Legendary strategy on an empty history cooperates exactly when
the draw is below 0.5.  On a non-empty history the base move is Defect
when the player's defect rate exceeds 0.3 or the player's last move was
Defect, and otherwise follows a 0.5 coin; a final 15%-probability flip
then inverts the base move, whichever way it was chosen. -/
theorem legendary_strategy_spec :
    (∀ rng : ℕ → ℚ, get_computer_move [] Difficulty.Legendary rng
        = some (if genBool (1/2) (rng 0) then Move.Cooperate else Move.Defect))
  ∧ (∀ (history : List (Move × Move)) (e : Move × Move) (rng : ℕ → ℚ),
      history.getLast? = some e →
      (playerDefectRate history > 3/10 ∨ e.1 = Move.Defect) →
        get_computer_move history Difficulty.Legendary rng
          = some (if genBool (3/20) (rng 0)
              then flipMove Move.Defect else Move.Defect))
  ∧ (∀ (history : List (Move × Move)) (e : Move × Move) (rng : ℕ → ℚ),
      history.getLast? = some e →
      ¬ playerDefectRate history > 3/10 → e.1 = Move.Cooperate →
        get_computer_move history Difficulty.Legendary rng
          = some (if genBool (3/20) (rng 1)
              then flipMove (if genBool (1/2) (rng 0) then Move.Defect else Move.Cooperate)
              else if genBool (1/2) (rng 0) then Move.Defect else Move.Cooperate)) := by
  refine ⟨fun rng => rfl, fun history e rng hl hcase => ?_, fun history e rng hl hrate hlast => ?_⟩
  · have hne := isEmpty_eq_false_of_getLast? hl
    rcases hcase with hrate | hlast
    · simp [get_computer_move, hne, hl, hrate]
    · by_cases hrate : playerDefectRate history > 3/10
      · simp [get_computer_move, hne, hl, hrate]
      · simp [get_computer_move, hne, hl, hrate, hlast]
  · have hne := isEmpty_eq_false_of_getLast? hl
    have h2 : (1/2 : ℚ) = 2⁻¹ := one_div 2
    cases hbv : genBool (2⁻¹ : ℚ) (rng 0) <;>
      simp [get_computer_move, hne, hl, hrate, hlast, h2, hbv]

/-- C6 witness: an all-defect history forces a base Defect which a high
flip draw leaves in place and a low flip draw inverts to Cooperate; an
all-cooperate history with high draws yields Cooperate. -/
theorem legendary_strategy_spec_witness :
    get_computer_move [(Move.Defect, Move.Cooperate)] Difficulty.Legendary (fun _ => 1)
      = some Move.Defect
  ∧ get_computer_move [(Move.Defect, Move.Cooperate)] Difficulty.Legendary (fun _ => 0)
      = some Move.Cooperate
  ∧ get_computer_move [(Move.Cooperate, Move.Cooperate)] Difficulty.Legendary (fun _ => 1)
      = some Move.Cooperate := by
  have h1 : playerDefectRate [(Move.Defect, Move.Cooperate)] = 1 := by
    simp [playerDefectRate]
  have h0 : ¬ playerDefectRate [(Move.Cooperate, Move.Cooperate)] > 3/10 := by
    simp [playerDefectRate]
    norm_num
  refine ⟨?_, ?_, ?_⟩
  · rw [legendary_strategy_spec.2.1 [(Move.Defect, Move.Cooperate)]
      (Move.Defect, Move.Cooperate) (fun _ => 1) (by simp) (Or.inl (by rw [h1]; norm_num))]
    norm_num [genBool, flipMove]
  · rw [legendary_strategy_spec.2.1 [(Move.Defect, Move.Cooperate)]
      (Move.Defect, Move.Cooperate) (fun _ => 0) (by simp) (Or.inl (by rw [h1]; norm_num))]
    norm_num [genBool, flipMove]
  · rw [legendary_strategy_spec.2.2 [(Move.Cooperate, Move.Cooperate)]
      (Move.Cooperate, Move.Cooperate) (fun _ => 1) (by simp) h0 rfl]
    norm_num [genBool, flipMove]

/-- The payoff matrix never consults the game state it is attached to. -/
theorem calculate_payoff_indep (s t : GameState) (pm cm : Move) :
    s.calculate_payoff pm cm = t.calculate_payoff pm cm := rfl

/-- Unfolding `runRounds` over a cons. -/
theorem runRounds_cons (state : GameState) (pc : Move × Move)
    (rest : List (Move × Move)) :
    runRounds state (pc :: rest) = runRounds (playRound state pc.1 pc.2) rest := rfl

/-- Components of `runRounds` from an arbitrary starting state. -/
theorem runRounds_components (t : GameState) (moves : List (Move × Move)) :
    ∀ state : GameState,
    (runRounds state moves).history = state.history ++ moves
  ∧ (runRounds state moves).round = state.round + moves.length
  ∧ (runRounds state moves).player_score
      = state.player_score + (moves.map (fun pc => (t.calculate_payoff pc.1 pc.2).1)).sum
  ∧ (runRounds state moves).computer_score
      = state.computer_score + (moves.map (fun pc => (t.calculate_payoff pc.1 pc.2).2)).sum
  ∧ (runRounds state moves).total_rounds = state.total_rounds
  ∧ (runRounds state moves).difficulty = state.difficulty := by
  induction moves with
  | nil => intro state; simp [runRounds]
  | cons pc rest ih =>
    intro state
    have h := ih (playRound state pc.1 pc.2)
    rw [runRounds_cons]
    refine ⟨?_, ?_, ?_, ?_, ?_, ?_⟩
    · rw [h.1]
      simp [playRound]
    · rw [h.2.1]
      simp [playRound]
      omega
    · rw [h.2.2.1]
      simp only [playRound, List.map_cons, List.sum_cons, calculate_payoff_indep state t]
      ring
    · rw [h.2.2.2.1]
      simp only [playRound, List.map_cons, List.sum_cons, calculate_payoff_indep state t]
      ring
    · rw [h.2.2.2.2.1]
      rfl
    · rw [h.2.2.2.2.2]
      rfl

/-- C2: after `N` completed rounds of a game the history holds exactly the
`N` recorded move pairs, the round counter equals `N` and stays within
`total_rounds`, the two scores are the sums of the respective payoffs of
the recorded pairs, and each round appends exactly one entry to the
history. -/
theorem game_state_invariant (T : Nat) (d : Difficulty)
    (moves : List (Move × Move)) (hle : moves.length ≤ T) :
    (runRounds (GameState.new T d) moves).history = moves
  ∧ (runRounds (GameState.new T d) moves).history.length = moves.length
  ∧ (runRounds (GameState.new T d) moves).round = moves.length
  ∧ (runRounds (GameState.new T d) moves).round
      ≤ (runRounds (GameState.new T d) moves).total_rounds
  ∧ (runRounds (GameState.new T d) moves).total_rounds = T
  ∧ (runRounds (GameState.new T d) moves).player_score
      = (moves.map (fun pc => ((GameState.new T d).calculate_payoff pc.1 pc.2).1)).sum
  ∧ (runRounds (GameState.new T d) moves).computer_score
      = (moves.map (fun pc => ((GameState.new T d).calculate_payoff pc.1 pc.2).2)).sum
  ∧ (∀ (s : GameState) (pm cm : Move),
        (playRound s pm cm).history = s.history ++ [(pm, cm)]
      ∧ (playRound s pm cm).round = s.round + 1) := by
  have h := runRounds_components (GameState.new T d) moves (GameState.new T d)
  refine ⟨?_, ?_, ?_, ?_, ?_, ?_, ?_, fun s pm cm => ⟨rfl, rfl⟩⟩
  · rw [h.1]
    rfl
  · rw [h.1]
    rfl
  · rw [h.2.1]
    simp [GameState.new]
  · rw [h.2.1, h.2.2.2.2.1]
    simpa [GameState.new] using hle
  · exact h.2.2.2.2.1
  · rw [h.2.2.1]
    simp [GameState.new]
  · rw [h.2.2.2.1]
    simp [GameState.new]

/-- C2 witness: a two-round Easy game with moves (C,D) then (D,C) records
both pairs, ends at round 2 of 2 and scores 5 points each. -/
theorem game_state_invariant_witness :
    (runRounds (GameState.new 2 Difficulty.Easy)
        [(Move.Cooperate, Move.Defect), (Move.Defect, Move.Cooperate)]).history
      = [(Move.Cooperate, Move.Defect), (Move.Defect, Move.Cooperate)]
  ∧ (runRounds (GameState.new 2 Difficulty.Easy)
        [(Move.Cooperate, Move.Defect), (Move.Defect, Move.Cooperate)]).round = 2
  ∧ (runRounds (GameState.new 2 Difficulty.Easy)
        [(Move.Cooperate, Move.Defect), (Move.Defect, Move.Cooperate)]).player_score = 5
  ∧ (runRounds (GameState.new 2 Difficulty.Easy)
        [(Move.Cooperate, Move.Defect), (Move.Defect, Move.Cooperate)]).computer_score = 5 := by
  have h := game_state_invariant 2 Difficulty.Easy
    [(Move.Cooperate, Move.Defect), (Move.Defect, Move.Cooperate)] (by decide)
  refine ⟨h.1, ?_, ?_, ?_⟩
  · rw [h.2.2.1]
    decide
  · rw [h.2.2.2.2.2.1]
    decide
  · rw [h.2.2.2.2.2.2.1]
    decide

attribute [ext] Statistics

/-- `record_game` increments `games_played`. -/
theorem record_game_games_played (stats : Statistics) (g : GameState) :
    (record_game stats g).games_played = stats.games_played + 1 := by
  simp only [record_game]
  split_ifs <;> rfl

/-- `record_game` increments `games_won` exactly on a player win. -/
theorem record_game_games_won (stats : Statistics) (g : GameState) :
    (record_game stats g).games_won
      = stats.games_won + (if g.player_score > g.computer_score then 1 else 0) := by
  simp only [record_game]
  split_ifs <;> rfl

/-- `record_game` increments `games_lost` exactly on a player loss. -/
theorem record_game_games_lost (stats : Statistics) (g : GameState) :
    (record_game stats g).games_lost
      = stats.games_lost + (if g.player_score < g.computer_score then 1 else 0) := by
  simp only [record_game]
  split_ifs <;> first | rfl | (exfalso; omega)

/-- `record_game` increments `games_tied` exactly on a draw. -/
theorem record_game_games_tied (stats : Statistics) (g : GameState) :
    (record_game stats g).games_tied
      = stats.games_tied
        + (if g.player_score > g.computer_score then 0
           else if g.player_score < g.computer_score then 0 else 1) := by
  simp only [record_game]
  split_ifs <;> first | rfl | (exfalso; omega)

/-- `record_game` adds the player's final score to `total_points`. -/
theorem record_game_total_points (stats : Statistics) (g : GameState) :
    (record_game stats g).total_points = stats.total_points + g.player_score := by
  simp only [record_game]
  split_ifs <;> rfl

/-- `record_game` updates the best differential by `max`. -/
theorem record_game_best (stats : Statistics) (g : GameState) :
    (record_game stats g).best_score_differential
      = max stats.best_score_differential (score_diff g) := by
  simp only [record_game, score_diff]
  split_ifs <;> rfl

/-- `record_game` updates the worst differential by `min`. -/
theorem record_game_worst (stats : Statistics) (g : GameState) :
    (record_game stats g).worst_score_differential
      = min stats.worst_score_differential (score_diff g) := by
  simp only [record_game, score_diff]
  split_ifs <;> rfl

/-- Recording two games in either order yields the same record. -/
theorem record_game_right_comm (stats : Statistics) (g1 g2 : GameState) :
    record_game (record_game stats g1) g2 = record_game (record_game stats g2) g1 := by
  ext
  · simp only [record_game_games_played]
  · simp only [record_game_games_won]
    omega
  · simp only [record_game_games_lost]
    omega
  · simp only [record_game_games_tied]
    omega
  · simp only [record_game_total_points]
    omega
  · simp only [record_game_best]
    exact Max.right_comm _ _ _
  · simp only [record_game_worst]
    exact min_right_comm _ _ _

/-- Unfolding `record_games` over a cons. -/
theorem record_games_cons (stats : Statistics) (g : GameState) (gs : List GameState) :
    record_games stats (g :: gs) = record_games (record_game stats g) gs := rfl

/-- Components of `record_games` from an arbitrary starting record. -/
theorem record_games_components (games : List GameState) : ∀ stats : Statistics,
    (record_games stats games).games_played = stats.games_played + games.length
  ∧ (record_games stats games).games_won
      = stats.games_won + games.countP (fun g => decide (g.player_score > g.computer_score))
  ∧ (record_games stats games).games_lost
      = stats.games_lost + games.countP (fun g => decide (g.player_score < g.computer_score))
  ∧ (record_games stats games).games_tied
      = stats.games_tied + games.countP (fun g => decide (g.player_score = g.computer_score))
  ∧ (record_games stats games).total_points
      = stats.total_points + (games.map (fun g => g.player_score)).sum
  ∧ (record_games stats games).best_score_differential
      = (games.map score_diff).foldl max stats.best_score_differential
  ∧ (record_games stats games).worst_score_differential
      = (games.map score_diff).foldl min stats.worst_score_differential := by
  induction games with
  | nil => intro stats; simp [record_games]
  | cons g gs ih =>
    intro stats
    have h := ih (record_game stats g)
    rw [record_games_cons]
    refine ⟨?_, ?_, ?_, ?_, ?_, ?_, ?_⟩
    · rw [h.1, record_game_games_played]
      simp [List.length_cons]
      omega
    · rw [h.2.1, record_game_games_won, List.countP_cons]
      by_cases hc : g.player_score > g.computer_score <;> simp [hc] <;> omega
    · rw [h.2.2.1, record_game_games_lost, List.countP_cons]
      by_cases hc : g.player_score < g.computer_score <;> simp [hc] <;> omega
    · rw [h.2.2.2.1, record_game_games_tied, List.countP_cons]
      rcases lt_trichotomy g.player_score g.computer_score with hc | hc | hc
      · simp [hc, hc.ne, hc.not_lt]
      · simp [hc, lt_irrefl]
        omega
      · simp [hc, hc.ne', hc.not_lt]
    · rw [h.2.2.2.2.1, record_game_total_points]
      simp [List.sum_cons]
      ring
    · rw [h.2.2.2.2.2.1, record_game_best]
      simp [List.foldl_cons]
    · rw [h.2.2.2.2.2.2, record_game_worst]
      simp [List.foldl_cons]

/-- A left fold by `max` never goes below its starting value. -/
theorem le_foldl_max (l : List Int) : ∀ b : Int, b ≤ l.foldl max b := by
  induction l with
  | nil => intro b; simp
  | cons x xs ih => intro b; exact le_trans (le_max_left b x) (ih (max b x))

/-- A left fold by `min` never goes above its starting value. -/
theorem foldl_min_le (l : List Int) : ∀ b : Int, l.foldl min b ≤ b := by
  induction l with
  | nil => intro b; simp
  | cons x xs ih => intro b; exact le_trans (ih (min b x)) (min_le_left b x)

/-- C8: folding completed games from a fresh record is order-independent;
the counters are sums/counts, the best differential is the maximum of 0
and all per-game differentials, the worst the minimum of 0 and all
per-game differentials, and over any sequence the best is monotonically
non-decreasing and the worst monotonically non-increasing. -/
theorem statistics_fold_spec (games games' : List GameState) (hp : games.Perm games') :
    record_games Statistics.new games = record_games Statistics.new games'
  ∧ (record_games Statistics.new games).games_played = games.length
  ∧ (record_games Statistics.new games).games_won
      = games.countP (fun g => decide (g.player_score > g.computer_score))
  ∧ (record_games Statistics.new games).games_lost
      = games.countP (fun g => decide (g.player_score < g.computer_score))
  ∧ (record_games Statistics.new games).games_tied
      = games.countP (fun g => decide (g.player_score = g.computer_score))
  ∧ (record_games Statistics.new games).total_points
      = (games.map (fun g => g.player_score)).sum
  ∧ (record_games Statistics.new games).best_score_differential
      = (games.map score_diff).foldl max 0
  ∧ (record_games Statistics.new games).worst_score_differential
      = (games.map score_diff).foldl min 0
  ∧ (∀ (stats : Statistics) (gs : List GameState),
        stats.best_score_differential ≤ (record_games stats gs).best_score_differential
      ∧ (record_games stats gs).worst_score_differential
          ≤ stats.worst_score_differential) := by
  have hchar := record_games_components games Statistics.new
  refine ⟨?_, ?_, ?_, ?_, ?_, ?_, ?_, ?_, fun stats gs => ⟨?_, ?_⟩⟩
  · exact hp.foldl_eq' (fun x _ y _ z => record_game_right_comm z x y) Statistics.new
  · simpa [Statistics.new] using hchar.1
  · simpa [Statistics.new] using hchar.2.1
  · simpa [Statistics.new] using hchar.2.2.1
  · simpa [Statistics.new] using hchar.2.2.2.1
  · simpa [Statistics.new] using hchar.2.2.2.2.1
  · simpa [Statistics.new] using hchar.2.2.2.2.2.1
  · simpa [Statistics.new] using hchar.2.2.2.2.2.2
  · rw [(record_games_components gs stats).2.2.2.2.2.1]
    exact le_foldl_max _ _
  · rw [(record_games_components gs stats).2.2.2.2.2.2]
    exact foldl_min_le _ _

/-- C8 witness: folding games with differentials 3, −2, 7, −5 in the given
order and in reverse yields the same record, with best 7 and worst −5. -/
theorem statistics_fold_spec_witness :
    record_games Statistics.new
        [⟨3, 0, 1, 1, [], Difficulty.Easy⟩, ⟨0, 2, 1, 1, [], Difficulty.Easy⟩,
         ⟨7, 0, 1, 1, [], Difficulty.Easy⟩, ⟨0, 5, 1, 1, [], Difficulty.Easy⟩]
      = record_games Statistics.new
        [⟨0, 5, 1, 1, [], Difficulty.Easy⟩, ⟨7, 0, 1, 1, [], Difficulty.Easy⟩,
         ⟨0, 2, 1, 1, [], Difficulty.Easy⟩, ⟨3, 0, 1, 1, [], Difficulty.Easy⟩]
  ∧ (record_games Statistics.new
        [⟨3, 0, 1, 1, [], Difficulty.Easy⟩, ⟨0, 2, 1, 1, [], Difficulty.Easy⟩,
         ⟨7, 0, 1, 1, [], Difficulty.Easy⟩, ⟨0, 5, 1, 1, [], Difficulty.Easy⟩]).best_score_differential = 7
  ∧ (record_games Statistics.new
        [⟨3, 0, 1, 1, [], Difficulty.Easy⟩, ⟨0, 2, 1, 1, [], Difficulty.Easy⟩,
         ⟨7, 0, 1, 1, [], Difficulty.Easy⟩, ⟨0, 5, 1, 1, [], Difficulty.Easy⟩]).worst_score_differential = -5 := by
  have h := statistics_fold_spec
    [⟨3, 0, 1, 1, [], Difficulty.Easy⟩, ⟨0, 2, 1, 1, [], Difficulty.Easy⟩,
     ⟨7, 0, 1, 1, [], Difficulty.Easy⟩, ⟨0, 5, 1, 1, [], Difficulty.Easy⟩]
    [⟨0, 5, 1, 1, [], Difficulty.Easy⟩, ⟨7, 0, 1, 1, [], Difficulty.Easy⟩,
     ⟨0, 2, 1, 1, [], Difficulty.Easy⟩, ⟨3, 0, 1, 1, [], Difficulty.Easy⟩]
    (List.reverse_perm _).symm
  refine ⟨h.1, ?_, ?_⟩
  · rw [h.2.2.2.2.2.2.1]
    decide
  · rw [h.2.2.2.2.2.2.2.1]
    decide

/-- C9: loading the statistics record never fails: whenever the file is
absent, unreadable or unparsable the result is the fresh all-zero record,
never a partial merge; when it parses, the parsed record is returned
as-is. -/
theorem statistics_load_spec (file_exists : Bool) (content : Option String)
    (parse : String → Option Statistics) :
    (file_exists = false → Statistics.load file_exists content parse = Statistics.new)
  ∧ (content = none → Statistics.load file_exists content parse = Statistics.new)
  ∧ (∀ c, content = some c → parse c = none →
      Statistics.load file_exists content parse = Statistics.new)
  ∧ (∀ c s, file_exists = true → content = some c → parse c = some s →
      Statistics.load file_exists content parse = s)
  ∧ (Statistics.load file_exists content parse = Statistics.new
      ∨ ∃ c s, content = some c ∧ parse c = some s
          ∧ Statistics.load file_exists content parse = s)
  ∧ (Statistics.new.games_played = 0 ∧ Statistics.new.games_won = 0
      ∧ Statistics.new.games_lost = 0 ∧ Statistics.new.games_tied = 0
      ∧ Statistics.new.total_points = 0 ∧ Statistics.new.best_score_differential = 0
      ∧ Statistics.new.worst_score_differential = 0) := by
  refine ⟨fun hf => ?_, fun hc => ?_, fun c hc hp => ?_, fun c s hf hc hp => ?_, ?_,
    rfl, rfl, rfl, rfl, rfl, rfl, rfl⟩
  · simp [Statistics.load, hf]
  · cases file_exists <;> simp [Statistics.load, hc]
  · cases file_exists <;> simp [Statistics.load, hc, hp]
  · simp [Statistics.load, hf, hc, hp]
  · cases hf : file_exists
    · exact Or.inl (by simp [Statistics.load])
    · cases hc : content with
      | none => exact Or.inl (by simp [Statistics.load])
      | some c =>
        cases hp : parse c with
        | none => exact Or.inl (by simp [Statistics.load, hp])
        | some s => exact Or.inr ⟨c, s, rfl, hp, by simp [Statistics.load, hp]⟩

/-- C9 witness: a missing file loads the all-zero record, and a parsed
record is returned unchanged. -/
theorem statistics_load_spec_witness :
    Statistics.load false none (fun _ => none) = Statistics.new
  ∧ Statistics.load true (some (String.mk [])) (fun _ => some ⟨1, 1, 0, 0, 6, 6, 0⟩)
      = ⟨1, 1, 0, 0, 6, 6, 0⟩ := by
  refine ⟨(statistics_load_spec false none (fun _ => none)).1 rfl, ?_⟩
  exact (statistics_load_spec true (some (String.mk [])) (fun _ => some ⟨1, 1, 0, 0, 6, 6, 0⟩)).2.2.2.1
    (String.mk []) ⟨1, 1, 0, 0, 6, 6, 0⟩ rfl rfl rfl
